import Mathlib

/-!
Shallow embedding of the ZebraCrossing fixed-window rate limiter
(`src/main.ts`, `src/types.ts` of kiritocode1/zebra-crossing).

The middleware body (src/main.ts lines 32-85) is embedded as the pure
function `check` below.  Numbers are idealised as `Int` (JavaScript number
precision and the Date range limit are not modelled), but the two
degenerate numeric values the control flow can actually meet — `undefined`
(reading a missing property off a truthy stored value) and `NaN`
(arithmetic on them) — are modelled explicitly by `JSVal`, because the
branch conditions `currentTime > expiresAt` and `hits > maxRequests`
and the header rendering depend on them.

Deno KV is modelled as a function from storage keys to an optional stored
record.  `none` covers both a missing entry and a stored falsy value
(the source only tests `record.value` for truthiness before reading its
properties, so every falsy value behaves identically to an absent one);
`some r` covers any truthy stored value, whose `hits` / `expiresAt`
property reads are the `JSVal` fields of `r` (`undef` when the property
is missing or non-numeric in a way the used operations cannot distinguish).

Effects are made observable: `check` returns the HTTP-visible outcome
(`Response`), the updated store, and the trace of store operations
performed (`StoreOp`), in source order.
-/

namespace ZebraCrossing

/-- A JavaScript numeric value as it flows through the middleware:
an exact integer, `NaN`, or `undefined`. -/
inductive JSVal where
  | num : Int → JSVal
  | nan : JSVal
  | undef : JSVal
deriving DecidableEq

/-- JavaScript `hits++` (src/main.ts line 64): incrementing `undefined`
or `NaN` yields `NaN`. -/
def jsInc : JSVal → JSVal
  | .num n => .num (n + 1)
  | _ => .nan

/-- JavaScript strict `a > b` on numbers: any comparison involving `NaN`
or `undefined` is `false`. -/
def jsGT : JSVal → JSVal → Bool
  | .num a, .num b => a > b
  | _, _ => false

/-- JavaScript `maxRequests - hits` (src/main.ts line 80) where the first
operand is a genuine number: subtraction with `NaN`/`undefined` gives `NaN`. -/
def jsSub (m : Int) : JSVal → JSVal
  | .num h => .num (m - h)
  | _ => .nan

/-- Result of `new Date(v).toISOString()` (src/main.ts lines 68 and 81),
modelled by the millisecond timestamp: defined exactly when `v` is a
number; on `NaN`/`undefined` the call throws a RangeError. -/
def toISO : JSVal → Option Int
  | .num e => some e
  | _ => none

/-- A truthy value stored in Deno KV, as seen through the two property
reads the middleware performs (src/main.ts lines 54-55). -/
structure KVRecord where
  hits : JSVal
  expiresAt : JSVal
deriving DecidableEq

/-- The Deno KV store, restricted to what the middleware observes:
a map from storage keys to an optional truthy record. -/
abbrev Store := String → Option KVRecord

/-- The store with no rate-limit records. -/
def emptyStore : Store := fun _ => none

/-- Functional update of a single store entry (the effect of
`kv.set(key, value)`, src/main.ts line 76). -/
def setKey (s : Store) (key : String) (r : KVRecord) : Store :=
  fun k => if k = key then some r else s k

/-- One store operation performed by the middleware, in source order.
The `Option Int` on a write is the storage-level TTL (`expireIn`)
passed to `kv.set`; the source passes none. -/
inductive StoreOp where
  | read : String → StoreOp
  | write : String → KVRecord → Option Int → StoreOp
deriving DecidableEq

/-- The storage key of a store operation. -/
def StoreOp.key : StoreOp → String
  | .read k => k
  | .write k _ _ => k

/-- The HTTP-visible outcome of one middleware call, plus two pieces of
instrumentation: `admitted` records which branch of the
`hits > maxRequests` test (src/main.ts line 67) was taken (the spec-level
decision), and `threw` records whether the call ended in a thrown
RangeError from `toISOString` instead of returning normally.
Header values are modelled by their numeric payloads: a field is `none`
when the corresponding `c.res.headers.set` line was never reached. -/
structure Response where
  status : Option Nat
  limitHdr : Option Int
  remainingHdr : Option JSVal
  resetHdr : Option Int
  nextCalled : Bool
  admitted : Bool
  threw : Bool
deriving DecidableEq

/-- The fixed key prefix baked into src/main.ts line 42. -/
def keyPrefix : String := "rate-limit:"

/-- Storage key for a client (src/main.ts line 42): the prefix
concatenated with the resolved client key. -/
def storageKey (clientKey : String) : String := keyPrefix ++ clientKey

/-- Embedding of the middleware body returned by `ZebraCrossing`
(src/main.ts lines 32-85), for one call: given the captured
configuration, the resolved client key, the value of `Date.now()`, and
the current store, it returns the response, the store after the call,
and the trace of store operations.

Step by step against the source:
- line 45: `record = await kv.get(key)` — the single read;
- lines 49-50: `hits = 0; expiresAt = currentTime + windowMs`;
- lines 53-61: if the record is truthy, take its fields, resetting them
  when `currentTime > expiresAt`;
- line 64: `hits++`;
- lines 67-73: if `hits > maxRequests`, render the reset time (which
  throws on a non-numeric `expiresAt`, before any header is set), set
  the three headers with Remaining literally `"0"`, and answer 429
  without calling `next`;
- line 76: otherwise persist `{hits, expiresAt}` (no TTL);
- lines 79-81: set Limit, Remaining (`maxRequests - hits`), then render
  the reset time (throwing on a non-numeric `expiresAt`, after the
  first two headers and the write);
- line 84: `await next()`. -/
def check (windowMs maxRequests : Int) (clientKey : String) (now : Int)
    (store : Store) : Response × Store × List StoreOp :=
  let key := storageKey clientKey
  let record := store key
  let state :=
    match record with
    | none => (JSVal.num 0, JSVal.num (now + windowMs))
    | some r =>
        if jsGT (.num now) r.expiresAt then (JSVal.num 0, JSVal.num (now + windowMs))
        else (r.hits, r.expiresAt)
  let hits := jsInc state.1
  let expiresAt := state.2
  if jsGT hits (.num maxRequests) then
    match toISO expiresAt with
    | none =>
        ({ status := none, limitHdr := none, remainingHdr := none,
           resetHdr := none, nextCalled := false, admitted := false,
           threw := true }, store, [.read key])
    | some resetTime =>
        ({ status := some 429, limitHdr := some maxRequests,
           remainingHdr := some (.num 0), resetHdr := some resetTime,
           nextCalled := false, admitted := false, threw := false },
         store, [.read key])
  else
    let newRec : KVRecord := ⟨hits, expiresAt⟩
    let store' := setKey store key newRec
    match toISO expiresAt with
    | none =>
        ({ status := none, limitHdr := some maxRequests,
           remainingHdr := some (jsSub maxRequests hits), resetHdr := none,
           nextCalled := false, admitted := true, threw := true },
         store', [.read key, .write key newRec none])
    | some resetTime =>
        ({ status := none, limitHdr := some maxRequests,
           remainingHdr := some (jsSub maxRequests hits),
           resetHdr := some resetTime, nextCalled := true, admitted := true,
           threw := false },
         store', [.read key, .write key newRec none])

/-- The possible construction-time failure named by the spec. -/
inductive ConfigError where
  | invalidConfiguration
deriving DecidableEq

/-- The options object accepted by `ZebraCrossing` (src/main.ts line 29):
exactly the two fields it destructures. -/
structure ZebraOptions where
  windowMs : Int
  maxRequests : Int
deriving DecidableEq

/-- Embedding of the `ZebraCrossing` constructor (src/main.ts lines
29-31): it destructures the options and returns the middleware closure
over them.  Its body contains no validation and no throw, so the
embedding into `Except` always succeeds with the captured
configuration. -/
def zebraCrossing (options : ZebraOptions) : Except ConfigError ZebraOptions :=
  .ok { windowMs := options.windowMs, maxRequests := options.maxRequests }

/-- Running a sequence of calls, each given as (client key, time of the
call), threading the store; returns the list of responses and the final
store. -/
def runCalls (windowMs maxRequests : Int) :
    List (String × Int) → Store → List Response × Store
  | [], store => ([], store)
  | (ip, t) :: rest, store =>
      let r := check windowMs maxRequests ip t store
      let rec' := runCalls windowMs maxRequests rest r.2.1
      (r.1 :: rec'.1, rec'.2)

/-- The response of an in-window call that is let through: downstream is
invoked, no status is forced, and the three headers carry the limit,
`maxRequests - hits`, and the window end. -/
def admitResp (maxRequests hits expiresAt : Int) : Response :=
  { status := none, limitHdr := some maxRequests,
    remainingHdr := some (.num (maxRequests - hits)),
    resetHdr := some expiresAt, nextCalled := true, admitted := true,
    threw := false }

/-- The response of a rate-limited call: 429, Remaining `"0"`, the limit
and window end in the headers, and downstream not invoked. -/
def rejectResp (maxRequests expiresAt : Int) : Response :=
  { status := some 429, limitHdr := some maxRequests,
    remainingHdr := some (.num 0), resetHdr := some expiresAt,
    nextCalled := false, admitted := false, threw := false }

/-- The store-state invariant of claim C10: every stored rate-limit
record is well-formed with `1 <= hits <= maxRequests`. -/
def goodStore (maxRequests : Int) (s : Store) : Prop :=
  ∀ k r, s k = some r →
    ∃ h e : Int, r = ⟨.num h, .num e⟩ ∧ 1 ≤ h ∧ h ≤ maxRequests

/-- A concrete client key for witnesses. -/
def ipA : String := "a"

/-- A second, distinct concrete client key. -/
def ipB : String := "b"

/-- Storage key of `ipA`. -/
def keyA : String := storageKey ipA

/-- Storage key of `ipB`. -/
def keyB : String := storageKey ipB

/-- A store holding, under `ipA`'s storage key, a truthy value that does
not parse as a record: both property reads give `undefined` (for
instance the stored value `{}` or a non-object such as `5`). -/
def malformedStore : Store := setKey emptyStore keyA ⟨.undef, .undef⟩

/-- A store holding, under `ipA`'s storage key, a well-formed record
whose window ended at time 50. -/
def staleStore : Store := setKey emptyStore keyA ⟨.num 2, .num 50⟩

/-! ### Basic lemmas about the store model -/

theorem setKey_same (s : Store) (key : String) (r : KVRecord) :
    setKey s key r key = some r := by
  simp [setKey]

theorem setKey_other (s : Store) (key : String) (r : KVRecord) (k : String)
    (hk : k ≠ key) : setKey s key r k = s k := by
  simp [setKey, hk]

theorem setKey_setKey (s : Store) (key : String) (r1 r2 : KVRecord) :
    setKey (setKey s key r1) key r2 = setKey s key r2 := by
  funext k
  by_cases hk : k = key <;> simp [setKey, hk]

theorem setKey_self (s : Store) (key : String) (r : KVRecord)
    (hs : s key = some r) : setKey s key r = s := by
  funext k
  by_cases hk : k = key <;> simp [setKey, hk, hs.symm]

/-! ### Single-call characterisation lemmas

These unfold `check` on the four regular shapes of the read record:
absent (or falsy), present-but-expired, present in-window below the
limit, and present in-window at the limit. -/

theorem check_fresh {w m : Int} {ip : String} {t : Int} {s : Store}
    (habs : s (storageKey ip) = none) (hm : 1 ≤ m) :
    check w m ip t s =
      (admitResp m 1 (t + w),
       setKey s (storageKey ip) ⟨.num 1, .num (t + w)⟩,
       [.read (storageKey ip), .write (storageKey ip) ⟨.num 1, .num (t + w)⟩ none]) := by
  have h1 : ¬ ((0 : Int) + 1 > m) := by omega
  simp [check, habs, jsInc, jsGT, jsSub, toISO, admitResp, h1]
  exact hm

theorem check_expired {w m : Int} {ip : String} {t : Int} {s : Store}
    {h e : Int} (hs : s (storageKey ip) = some ⟨.num h, .num e⟩)
    (he : e < t) (hm : 1 ≤ m) :
    check w m ip t s =
      (admitResp m 1 (t + w),
       setKey s (storageKey ip) ⟨.num 1, .num (t + w)⟩,
       [.read (storageKey ip), .write (storageKey ip) ⟨.num 1, .num (t + w)⟩ none]) := by
  have h1 : ¬ ((0 : Int) + 1 > m) := by omega
  have h2 : t > e := he
  simp [check, hs, jsInc, jsGT, jsSub, toISO, admitResp, h1, h2]
  exact hm

theorem check_fresh_reject {w m : Int} {ip : String} {t : Int} {s : Store}
    (habs : s (storageKey ip) = none) (hm : m < 1) :
    check w m ip t s = (rejectResp m (t + w), s, [.read (storageKey ip)]) := by
  have hb : (0 : Int) + 1 > m := by omega
  simp [check, habs, jsInc, jsGT, jsSub, toISO, rejectResp, hb]
  exact hm

theorem check_expired_reject {w m : Int} {ip : String} {t : Int} {s : Store}
    {h e : Int} (hs : s (storageKey ip) = some ⟨.num h, .num e⟩)
    (he : e < t) (hm : m < 1) :
    check w m ip t s = (rejectResp m (t + w), s, [.read (storageKey ip)]) := by
  have hb : (0 : Int) + 1 > m := by omega
  have h2 : t > e := he
  simp [check, hs, jsInc, jsGT, jsSub, toISO, rejectResp, h2, hb]
  exact hm

theorem check_inwindow_allow {w m : Int} {ip : String} {t : Int} {s : Store}
    {h e : Int} (hs : s (storageKey ip) = some ⟨.num h, .num e⟩)
    (ht : t ≤ e) (hh : h + 1 ≤ m) :
    check w m ip t s =
      (admitResp m (h + 1) e,
       setKey s (storageKey ip) ⟨.num (h + 1), .num e⟩,
       [.read (storageKey ip), .write (storageKey ip) ⟨.num (h + 1), .num e⟩ none]) := by
  have h1 : ¬ (t > e) := by omega
  have h2 : ¬ (h + 1 > m) := by omega
  simp [check, hs, jsInc, jsGT, jsSub, toISO, admitResp, h1, h2]

theorem check_inwindow_reject {w m : Int} {ip : String} {t : Int} {s : Store}
    {h e : Int} (hs : s (storageKey ip) = some ⟨.num h, .num e⟩)
    (ht : t ≤ e) (hh : m < h + 1) :
    check w m ip t s = (rejectResp m e, s, [.read (storageKey ip)]) := by
  have h1 : ¬ (t > e) := by omega
  have h2 : h + 1 > m := hh
  simp [check, hs, jsInc, jsGT, jsSub, toISO, rejectResp, h1, h2]

/-! ### Lemmas about call sequences -/

theorem runCalls_nil (w m : Int) (s : Store) : runCalls w m [] s = ([], s) := rfl

theorem runCalls_cons (w m : Int) (ip : String) (t : Int)
    (rest : List (String × Int)) (s : Store) :
    runCalls w m ((ip, t) :: rest) s =
      ((check w m ip t s).1 :: (runCalls w m rest (check w m ip t s).2.1).1,
       (runCalls w m rest (check w m ip t s).2.1).2) := rfl

theorem runCalls_append (w m : Int) (l1 l2 : List (String × Int)) (s : Store) :
    runCalls w m (l1 ++ l2) s =
      ((runCalls w m l1 s).1 ++ (runCalls w m l2 (runCalls w m l1 s).2).1,
       (runCalls w m l2 (runCalls w m l1 s).2).2) := by
  induction l1 generalizing s with
  | nil => simp [runCalls]
  | cons p rest ih =>
      obtain ⟨ip, t⟩ := p
      simp [runCalls, ih]

/-- Running `ts` further calls for the same client from an in-window
record with `h` hits, all call times inside the window and the total
staying within the limit: every call is let through with the hit count
advancing by one each time, and the final store holds the total. -/
theorem runCalls_window (w m : Int) (ip : String) (e : Int) :
    ∀ (ts : List Int) (h : Int) (s : Store),
      s (storageKey ip) = some ⟨.num h, .num e⟩ →
      (∀ t ∈ ts, t ≤ e) →
      h + ts.length ≤ m →
      (runCalls w m (ts.map fun t => (ip, t)) s).1 =
        (List.range ts.length).map (fun i : Nat => admitResp m (h + (i : Int) + 1) e) ∧
      (runCalls w m (ts.map fun t => (ip, t)) s).2 =
        setKey s (storageKey ip) ⟨.num (h + ts.length), .num e⟩ := by
  intro ts
  induction ts with
  | nil =>
      intro h s hs _ _
      refine ⟨rfl, ?_⟩
      have : (setKey s (storageKey ip) ⟨.num (h + ([] : List Int).length), .num e⟩) = s := by
        rw [show h + (([] : List Int).length : Int) = h by simp]
        exact setKey_self s _ _ hs
      rw [this]
      rfl
  | cons t ts ih =>
      intro h s hs hwin hlen
      have ht : t ≤ e := hwin t (by simp)
      have hlen' : (ts.length : Int) + 1 = ((t :: ts).length : Int) := by
        simp
      have hh : h + 1 ≤ m := by
        have h0 : (0 : Int) ≤ (ts.length : Int) := Int.natCast_nonneg _
        omega
      have hlen2 : (h + 1) + (ts.length : Int) ≤ m := by omega
      obtain ⟨ihr, ihs⟩ := ih (h + 1) (setKey s (storageKey ip) ⟨.num (h + 1), .num e⟩)
        (setKey_same _ _ _) (fun t' ht' => hwin t' (by simp [ht'])) hlen2
      rw [List.map_cons, runCalls_cons, check_inwindow_allow hs ht hh]
      constructor
      · show admitResp m (h + 1) e :: _ = _
        rw [ihr, List.length_cons, List.range_succ_eq_map, List.map_cons, List.map_map]
        congr 1
        · norm_num
        · apply List.map_congr_left
          intro i _
          simp only [Function.comp]
          congr 1
          push_cast
          ring
      · show (runCalls w m (ts.map fun t => (ip, t)) _).2 = _
        rw [ihs, setKey_setKey]
        have harith : h + 1 + (ts.length : Int) = h + ((t :: ts).length : Int) := by
          simp only [List.length_cons]
          push_cast
          ring
        rw [harith]

/-! ### Shape of a single call: effects case analysis -/

/-- Every call either takes the rejected branch of the limit test,
leaving the store untouched after its single read, or takes the allowed
branch, performing the single read followed by one TTL-free write of the
new record to its own storage key. -/
theorem check_cases (w m : Int) (ip : String) (t : Int) (s : Store) :
    ((check w m ip t s).1.admitted = false ∧ (check w m ip t s).2.1 = s ∧
     (check w m ip t s).2.2 = [.read (storageKey ip)]) ∨
    ((check w m ip t s).1.admitted = true ∧ ∃ r : KVRecord,
       (check w m ip t s).2.1 = setKey s (storageKey ip) r ∧
       (check w m ip t s).2.2 = [.read (storageKey ip), .write (storageKey ip) r none]) := by
  rcases hrec : s (storageKey ip) with _ | ⟨hv, ev⟩
  · by_cases hb : m < 1
    · left
      simp [check, hrec, jsInc, jsGT, toISO, hb]
    · right
      simp [check, hrec, jsInc, jsGT, toISO, hb]
  · rcases ev with e | _ | _
    · by_cases hex : t > e
      · by_cases hb : m < 1
        · left
          simp [check, hrec, jsInc, jsGT, toISO, hex, hb]
        · right
          simp [check, hrec, jsInc, jsGT, toISO, hex, hb]
      · rcases hv with h | _ | _
        · by_cases hb : m < h + 1
          · left
            simp [check, hrec, jsInc, jsGT, toISO, hex, hb]
          · right
            simp [check, hrec, jsInc, jsGT, toISO, hex, hb]
        · right
          simp [check, hrec, jsInc, jsGT, toISO, hex]
        · right
          simp [check, hrec, jsInc, jsGT, toISO, hex]
    · rcases hv with h | _ | _
      · by_cases hb : m < h + 1
        · left
          simp [check, hrec, jsInc, jsGT, toISO, hb]
        · right
          simp [check, hrec, jsInc, jsGT, toISO, hb]
      · right
        simp [check, hrec, jsInc, jsGT, toISO]
      · right
        simp [check, hrec, jsInc, jsGT, toISO]
    · rcases hv with h | _ | _
      · by_cases hb : m < h + 1
        · left
          simp [check, hrec, jsInc, jsGT, toISO, hb]
        · right
          simp [check, hrec, jsInc, jsGT, toISO, hb]
      · right
        simp [check, hrec, jsInc, jsGT, toISO]
      · right
        simp [check, hrec, jsInc, jsGT, toISO]

/-- The outcome of a call depends on the store only through the entry at
its own storage key: two stores agreeing there yield the same response,
the same operation trace, and the same resulting entry at that key. -/
theorem check_congr (w m : Int) (ip : String) (t : Int) (s s2 : Store)
    (hst : s (storageKey ip) = s2 (storageKey ip)) :
    (check w m ip t s).1 = (check w m ip t s2).1 ∧
    (check w m ip t s).2.2 = (check w m ip t s2).2.2 ∧
    (check w m ip t s).2.1 (storageKey ip) = (check w m ip t s2).2.1 (storageKey ip) := by
  rcases hrec : s (storageKey ip) with _ | ⟨hv, ev⟩
  all_goals have hrec2 : s2 (storageKey ip) = s (storageKey ip) := hst.symm
  all_goals rw [hrec] at hrec2
  · by_cases hb : m < 1 <;>
      simp [check, hrec, hrec2, jsInc, jsGT, toISO, hb, setKey_same, hst]
  · rcases ev with e | _ | _
    · by_cases hex : t > e
      · by_cases hb : m < 1 <;>
          simp [check, hrec, hrec2, jsInc, jsGT, toISO, hex, hb, setKey_same, hst]
      · rcases hv with h | _ | _
        · by_cases hb : m < h + 1 <;>
            simp [check, hrec, hrec2, jsInc, jsGT, toISO, hex, hb, setKey_same, hst]
        · simp [check, hrec, hrec2, jsInc, jsGT, toISO, hex, setKey_same, hst]
        · simp [check, hrec, hrec2, jsInc, jsGT, toISO, hex, setKey_same, hst]
    · rcases hv with h | _ | _
      · by_cases hb : m < h + 1 <;>
          simp [check, hrec, hrec2, jsInc, jsGT, toISO, hb, setKey_same, hst]
      · simp [check, hrec, hrec2, jsInc, jsGT, toISO, setKey_same, hst]
      · simp [check, hrec, hrec2, jsInc, jsGT, toISO, setKey_same, hst]
    · rcases hv with h | _ | _
      · by_cases hb : m < h + 1 <;>
          simp [check, hrec, hrec2, jsInc, jsGT, toISO, hb, setKey_same, hst]
      · simp [check, hrec, hrec2, jsInc, jsGT, toISO, setKey_same, hst]
      · simp [check, hrec, hrec2, jsInc, jsGT, toISO, setKey_same, hst]

/-- Updating one entry with a record whose hit count lies in range
preserves the store invariant. -/
theorem goodStore_setKey (m : Int) (s : Store) (key : String) (h e : Int)
    (hs : goodStore m s) (h1 : 1 ≤ h) (h2 : h ≤ m) :
    goodStore m (setKey s key ⟨.num h, .num e⟩) := by
  intro k r hk
  by_cases hkk : k = key
  · rw [hkk, setKey_same] at hk
    exact ⟨h, e, (Option.some_inj.mp hk).symm, h1, h2⟩
  · rw [setKey_other _ _ _ _ hkk] at hk
    exact hs k r hk

/-- One call preserves the store invariant, and every record it writes
has its hit count in `[1, maxRequests]`. -/
theorem check_good (w m : Int) (ip : String) (t : Int) (s : Store)
    (hs : goodStore m s) :
    goodStore m (check w m ip t s).2.1 ∧
    (∀ k r ttl, StoreOp.write k r ttl ∈ (check w m ip t s).2.2 →
       ∃ h e : Int, r = ⟨.num h, .num e⟩ ∧ 1 ≤ h ∧ h ≤ m) := by
  rcases hrec : s (storageKey ip) with _ | ⟨hv, ev⟩
  · by_cases hb : 1 ≤ m
    · rw [check_fresh hrec hb]
      refine ⟨goodStore_setKey m s _ 1 (t + w) hs le_rfl hb, ?_⟩
      intro k r ttl hmem
      simp only [List.mem_cons, List.not_mem_nil, or_false] at hmem
      rcases hmem with h1 | h1
      · exact absurd h1 (by simp)
      · obtain ⟨hk, hr, ht⟩ := StoreOp.write.inj h1
        exact ⟨1, t + w, hr, le_rfl, hb⟩
    · rw [check_fresh_reject hrec (by omega)]
      refine ⟨hs, ?_⟩
      intro k r ttl hmem
      simp only [List.mem_cons, List.not_mem_nil, or_false] at hmem
      exact absurd hmem (by simp)
  · obtain ⟨h, e, hre, hh1, hhm⟩ := hs _ _ hrec
    simp only [KVRecord.mk.injEq] at hre
    obtain ⟨hhv, hev⟩ := hre
    subst hhv
    subst hev
    by_cases hex : e < t
    · have hb : 1 ≤ m := by omega
      rw [check_expired hrec hex hb]
      refine ⟨goodStore_setKey m s _ 1 (t + w) hs le_rfl hb, ?_⟩
      intro k r ttl hmem
      simp only [List.mem_cons, List.not_mem_nil, or_false] at hmem
      rcases hmem with h1 | h1
      · exact absurd h1 (by simp)
      · obtain ⟨hk, hr, ht⟩ := StoreOp.write.inj h1
        exact ⟨1, t + w, hr, le_rfl, hb⟩
    · have ht : t ≤ e := by omega
      by_cases hb : h + 1 ≤ m
      · rw [check_inwindow_allow hrec ht hb]
        refine ⟨goodStore_setKey m s _ (h + 1) e hs (by omega) hb, ?_⟩
        intro k r ttl hmem
        simp only [List.mem_cons, List.not_mem_nil, or_false] at hmem
        rcases hmem with h1 | h1
        · exact absurd h1 (by simp)
        · obtain ⟨hk, hr, ht2⟩ := StoreOp.write.inj h1
          exact ⟨h + 1, e, hr, by omega, hb⟩
      · rw [check_inwindow_reject hrec ht (by omega)]
        refine ⟨hs, ?_⟩
        intro k r ttl hmem
        simp only [List.mem_cons, List.not_mem_nil, or_false] at hmem
        exact absurd hmem (by simp)

/-! ### The claims -/

/-- C1: for a key with no prior record and `n <= maxRequests` calls with
that key inside one window (the first call at `t1` opens the window
ending at `t1 + windowMs`, and every call time lies inside it), every
call is let through to downstream and the i-th call (0-indexed here)
carries `X-RateLimit-Remaining = maxRequests - (i+1)`, i.e. the 1-indexed
i-th call carries `maxRequests - i`, decreasing monotonically from
`maxRequests - 1` down to `maxRequests - n`. -/
theorem zebra_c1 (w m : Int) (ip : String) (t1 : Int) (ts : List Int) (s : Store)
    (habs : s (storageKey ip) = none)
    (hwin : ∀ t ∈ ts, t ≤ t1 + w)
    (hlen : (ts.length : Int) + 1 ≤ m) :
    ∀ i : Nat, i < ts.length + 1 →
      (runCalls w m ((t1 :: ts).map fun t => (ip, t)) s).1.get? i =
        some (admitResp m ((i : Int) + 1) (t1 + w)) := by
  have hm : (1 : Int) ≤ m := by
    have h0 : (0 : Int) ≤ (ts.length : Int) := Int.natCast_nonneg _
    omega
  have hlen2 : (1 : Int) + (ts.length : Int) ≤ m := by omega
  rw [List.map_cons, runCalls_cons, check_fresh habs hm]
  obtain ⟨ihr, -⟩ := runCalls_window w m ip (t1 + w) ts 1
    (setKey s (storageKey ip) ⟨.num 1, .num (t1 + w)⟩) (setKey_same _ _ _) hwin hlen2
  rw [ihr]
  intro i hi
  match i with
  | 0 =>
      show some (admitResp m 1 (t1 + w)) = _
      norm_num
  | Nat.succ j =>
      show (List.map _ (List.range ts.length)).get? j = _
      have hj : j < ts.length := by omega
      rw [List.get?_map, List.get?_range hj]
      show some (admitResp m (1 + (j : Int) + 1) (t1 + w)) = _
      congr 2
      push_cast
      ring

/-- Witness for C1: three calls at times 0, 10, 20 with limit 3 and a
100ms window; the third call is still let through with remaining 0. -/
theorem zebra_c1_witness :
    (runCalls 100 3 (((0 : Int) :: [10, 20]).map fun t => (ipA, t)) emptyStore).1.get? 2 =
      some (admitResp 3 (((2 : Nat) : Int) + 1) (0 + 100)) :=
  zebra_c1 100 3 ipA 0 [10, 20] emptyStore rfl (by decide) (by decide) 2 (by decide)

/-- C2: a call finding no record for its key, or a record whose
`expiresAt` is strictly less than the current time, is processed as a
fresh window: it is let through, the persisted record is
`{hits = 1, expiresAt = now + windowMs}`, and the returned reset header
carries `now + windowMs` (the `admitResp` response also shows remaining
`maxRequests - 1`).  `maxRequests >= 1` is the configuration contract. -/
theorem zebra_c2 (w m : Int) (ip : String) (now : Int) (s : Store)
    (hstale : s (storageKey ip) = none ∨
      ∃ h e : Int, s (storageKey ip) = some ⟨.num h, .num e⟩ ∧ e < now)
    (hm : 1 ≤ m) :
    check w m ip now s =
      (admitResp m 1 (now + w),
       setKey s (storageKey ip) ⟨.num 1, .num (now + w)⟩,
       [.read (storageKey ip), .write (storageKey ip) ⟨.num 1, .num (now + w)⟩ none]) := by
  rcases hstale with habs | ⟨h, e, hs, he⟩
  · exact check_fresh habs hm
  · exact check_expired hs he hm

/-- Witness for C2: a record expired at time 50, read at time 100 with a
100ms window and limit 3, yields a fresh admitted window ending at 200
with one hit persisted. -/
theorem zebra_c2_witness :
    check 100 3 ipA 100 staleStore =
      (admitResp 3 1 (100 + 100),
       setKey staleStore (storageKey ipA) ⟨.num 1, .num (100 + 100)⟩,
       [.read (storageKey ipA), .write (storageKey ipA) ⟨.num 1, .num (100 + 100)⟩ none]) :=
  zebra_c2 100 3 ipA 100 staleStore (Or.inr ⟨2, 50, by decide, by decide⟩) (by decide)

/-- C3: starting from no record, after `maxRequests` admitted calls
inside one window, the `(maxRequests + 1)`-th call in the same window is
rejected: status 429, `X-RateLimit-Remaining` is the literal 0, the
Limit and Reset headers are set (`rejectResp` carries all three), and
downstream is not invoked (`nextCalled = false`). -/
theorem zebra_c3 (w m : Int) (ip : String) (t1 : Int) (ts : List Int) (tl : Int)
    (s : Store)
    (habs : s (storageKey ip) = none)
    (hwin : ∀ t ∈ ts, t ≤ t1 + w) (hl : tl ≤ t1 + w)
    (hlen : (ts.length : Int) + 1 = m) :
    (runCalls w m (((t1 :: ts) ++ [tl]).map fun t => (ip, t)) s).1.get? (ts.length + 1) =
      some (rejectResp m (t1 + w)) := by
  have hm : (1 : Int) ≤ m := by
    have h0 : (0 : Int) ≤ (ts.length : Int) := Int.natCast_nonneg _
    omega
  have hlen2 : (1 : Int) + (ts.length : Int) ≤ m := by omega
  obtain ⟨ihr, ihs⟩ := runCalls_window w m ip (t1 + w) ts 1
    (setKey s (storageKey ip) ⟨.num 1, .num (t1 + w)⟩) (setKey_same _ _ _) hwin hlen2
  have hreject := check_inwindow_reject (w := w) (m := m) (t := tl)
    (setKey_same s (storageKey ip) ⟨.num (1 + (ts.length : Int)), .num (t1 + w)⟩)
    hl (by omega)
  have hlist : (runCalls w m (((t1 :: ts) ++ [tl]).map fun t => (ip, t)) s).1 =
      (admitResp m 1 (t1 + w) ::
        (List.range ts.length).map (fun i : Nat => admitResp m (1 + (i : Int) + 1) (t1 + w)))
        ++ [rejectResp m (t1 + w)] := by
    rw [List.map_append, runCalls_append, List.map_cons, runCalls_cons, check_fresh habs hm]
    dsimp only
    rw [ihr, ihs, setKey_setKey, List.map_cons, List.map_nil, runCalls_cons, hreject]
    rfl
  rw [hlist]
  have hidx : ts.length + 1 = (admitResp m 1 (t1 + w) ::
      (List.range ts.length).map (fun i : Nat => admitResp m (1 + (i : Int) + 1) (t1 + w))).length := by
    simp
  rw [hidx, List.get?_concat_length]

/-- Witness for C3: with limit 3 and window 100, the fourth call at time
30 after admitted calls at 0, 10, 20 is rejected with reset time 100. -/
theorem zebra_c3_witness :
    (runCalls 100 3 ((((0 : Int) :: [10, 20]) ++ [30]).map fun t => (ipA, t)) emptyStore).1.get?
        (([10, 20] : List Int).length + 1) =
      some (rejectResp 3 (0 + 100)) :=
  zebra_c3 100 3 ipA 0 [10, 20] 30 emptyStore rfl (by decide) (by decide) (by decide)

/-- C4: on every call the middleware performs exactly one store read
(of its own storage key) and, exactly when the call takes the admitted
branch of the limit test, exactly one store write; on every rejected
call the store is left unchanged — the incremented hit count is not
persisted — and there are no other store effects. -/
theorem zebra_c4 (w m : Int) (ip : String) (t : Int) (s : Store) :
    ((check w m ip t s).1.admitted = false →
       (check w m ip t s).2.1 = s ∧
       (check w m ip t s).2.2 = [.read (storageKey ip)]) ∧
    ((check w m ip t s).1.admitted = true →
       ∃ r : KVRecord, (check w m ip t s).2.2 =
           [.read (storageKey ip), .write (storageKey ip) r none] ∧
         (check w m ip t s).2.1 = setKey s (storageKey ip) r) := by
  rcases check_cases w m ip t s with ⟨ha, hs', hops⟩ | ⟨ha, r, hs', hops⟩
  · refine ⟨fun _ => ⟨hs', hops⟩, fun htrue => ?_⟩
    rw [ha] at htrue
    exact absurd htrue (by simp)
  · refine ⟨fun hfalse => ?_, fun _ => ⟨r, hops, hs'⟩⟩
    rw [ha] at hfalse
    exact absurd hfalse (by simp)

/-- Witness for C4: with limit 0 the first call is rejected, the store
is unchanged and the only store operation is the single read. -/
theorem zebra_c4_witness :
    (check 100 0 ipA 0 emptyStore).2.1 = emptyStore ∧
    (check 100 0 ipA 0 emptyStore).2.2 = [.read (storageKey ipA)] :=
  (zebra_c4 100 0 ipA 0 emptyStore).1 (by decide)

/-- C5 counterexample: with limit 1 and window 100, the call at time 0
is admitted and the call at time 10 is rejected, yet the store still
holds `hits = 1` afterwards — not `hits = 2` — so the rejected call did
not increment the hit count that subsequent calls in the window
observe. -/
theorem zebra_c5_cex :
    (runCalls 100 1 [(ipA, 0), (ipA, 10)] emptyStore).1 =
      [admitResp 1 1 100, rejectResp 1 100] ∧
    (runCalls 100 1 [(ipA, 0), (ipA, 10)] emptyStore).2 keyA =
      some ⟨.num 1, .num 100⟩ ∧
    (runCalls 100 1 [(ipA, 0), (ipA, 10)] emptyStore).2 keyA ≠
      some ⟨.num 2, .num 100⟩ := by
  decide

/-- C5 as amended: the rejected request is counted only in its own
decision — the limit test compares the stored count plus one against
the limit — but the incremented count is not persisted: a rejected
in-window call leaves the store exactly as it was, so later calls in
the same window observe a count that excludes rejected requests. -/
theorem zebra_c5_amended (w m : Int) (ip : String) (t : Int) (s : Store)
    (h e : Int) (hs : s (storageKey ip) = some ⟨.num h, .num e⟩)
    (ht : t ≤ e) (hh : m < h + 1) :
    check w m ip t s = (rejectResp m e, s, [.read (storageKey ip)]) :=
  check_inwindow_reject hs ht hh

/-- Witness for C5 as amended: a record with 2 hits and window end 50,
read at time 40 with limit 1, is rejected and the store is returned
unchanged. -/
theorem zebra_c5_witness :
    check 100 1 ipA 40 staleStore =
      (rejectResp 1 50, staleStore, [.read (storageKey ipA)]) :=
  zebra_c5_amended 100 1 ipA 40 staleStore 2 50 (by decide) (by decide) (by decide)

/-- C6 counterexample: a stored truthy value whose two properties read
as `undefined` makes the call throw (RangeError while rendering the
reset header) and persist `{hits: NaN, expiresAt: undefined}` —
while the same call with the record absent does not throw and persists
`{hits: 1, expiresAt: 100}`.  Malformed records are therefore neither
throw-free nor treated as absent. -/
theorem zebra_c6_cex :
    (check 100 5 ipA 0 malformedStore).1.threw = true ∧
    (check 100 5 ipA 0 malformedStore).2.1 keyA = some ⟨.nan, .undef⟩ ∧
    (check 100 5 ipA 0 emptyStore).1.threw = false ∧
    (check 100 5 ipA 0 emptyStore).2.1 keyA = some ⟨.num 1, .num 100⟩ := by
  decide

/-- C6 as amended: a falsy or absent stored value is treated as a fresh
window, but a truthy stored value whose `expiresAt` does not read as a
number is not treated as absent: the call ends in a thrown RangeError
(from `new Date(expiresAt).toISOString()`) and never invokes
downstream. -/
theorem zebra_c6_amended (w m : Int) (ip : String) (t : Int) (s : Store)
    (r : KVRecord) (hs : s (storageKey ip) = some r)
    (hbad : toISO r.expiresAt = none) :
    (check w m ip t s).1.threw = true ∧
    (check w m ip t s).1.nextCalled = false := by
  rcases r with ⟨hv, ev⟩
  rcases ev with e | _ | _
  · exact absurd hbad (by simp [toISO])
  · rcases hv with h | _ | _
    · by_cases hb : m < h + 1 <;> simp [check, hs, jsInc, jsGT, toISO, hb]
    · simp [check, hs, jsInc, jsGT, toISO]
    · simp [check, hs, jsInc, jsGT, toISO]
  · rcases hv with h | _ | _
    · by_cases hb : m < h + 1 <;> simp [check, hs, jsInc, jsGT, toISO, hb]
    · simp [check, hs, jsInc, jsGT, toISO]
    · simp [check, hs, jsInc, jsGT, toISO]

/-- Witness for C6 as amended: the call on `malformedStore` throws and
downstream is not invoked. -/
theorem zebra_c6_witness :
    (check 100 5 ipA 0 malformedStore).1.threw = true ∧
    (check 100 5 ipA 0 malformedStore).1.nextCalled = false :=
  zebra_c6_amended 100 5 ipA 0 malformedStore ⟨.undef, .undef⟩ (by decide) rfl

/-- C7 counterexample: constructing the middleware with
`windowMs = 0` and `maxRequests = 0` succeeds, returning the middleware
over that configuration; no `InvalidConfiguration` error is raised. -/
theorem zebra_c7_cex :
    zebraCrossing ⟨0, 0⟩ = Except.ok ⟨0, 0⟩ ∧
    zebraCrossing ⟨0, 0⟩ ≠ Except.error ConfigError.invalidConfiguration :=
  ⟨rfl, fun hcontra => Except.noConfusion hcontra⟩

/-- C7 as amended: construction performs no validation and never fails:
any options value with `windowMs <= 0` or `maxRequests <= 0` is
accepted unchanged, and a call on an empty store with such a
configuration never ends in a thrown error either (with
`maxRequests <= 0` it is simply rejected at request time). -/
theorem zebra_c7_amended (o : ZebraOptions)
    (hbad : o.windowMs ≤ 0 ∨ o.maxRequests ≤ 0) :
    zebraCrossing o = .ok o ∧
    ∀ (ip : String) (t : Int),
      (check o.windowMs o.maxRequests ip t emptyStore).1.threw = false := by
  refine ⟨rfl, fun ip t => ?_⟩
  by_cases hb : o.maxRequests < 1
  · rw [check_fresh_reject rfl hb]
    rfl
  · rw [check_fresh rfl (by omega)]
    rfl

/-- Witness for C7 as amended: the all-zero configuration is accepted
and its first request does not throw. -/
theorem zebra_c7_witness :
    zebraCrossing ⟨0, 0⟩ = Except.ok ⟨0, 0⟩ ∧
    (check 0 0 ipA 0 emptyStore).1.threw = false :=
  ⟨(zebra_c7_amended ⟨0, 0⟩ (Or.inl (by decide))).1,
   (zebra_c7_amended ⟨0, 0⟩ (Or.inl (by decide))).2 ipA 0⟩

/-- C8 counterexample: an admitted call (fresh key, limit 5, window
100, time 0) performs its write with no storage-level TTL — the
`expireIn` argument is `none`, not `max 0 (expiresAt - now) = 100` —
so no write ever refreshes a TTL, and the middleware's options carry
no `resetExpiryOnChange` field to request it. -/
theorem zebra_c8_cex :
    (check 100 5 ipA 0 emptyStore).1.admitted = true ∧
    (check 100 5 ipA 0 emptyStore).2.2 =
      [.read keyA, .write keyA ⟨.num 1, .num 100⟩ none] ∧
    (check 100 5 ipA 0 emptyStore).2.2 ≠
      [.read keyA, .write keyA ⟨.num 1, .num 100⟩ (some (max 0 (100 - 0)))] := by
  decide

/-- C8 as amended: the options accepted by `ZebraCrossing` are exactly
`{windowMs, maxRequests}` (the `resetExpiryOnChange` flag exists only
in the repository's unused `Options` type in src/types.ts), and every
call's store-operation trace is a bare read or a read followed by a
single write whose TTL argument is `none`: no write refreshes a
storage-level TTL. -/
theorem zebra_c8_amended (w m : Int) (ip : String) (t : Int) (s : Store) :
    (check w m ip t s).2.2 = [.read (storageKey ip)] ∨
    ∃ r : KVRecord, (check w m ip t s).2.2 =
      [.read (storageKey ip), .write (storageKey ip) r none] := by
  rcases check_cases w m ip t s with ⟨-, -, hops⟩ | ⟨-, r, -, hops⟩
  · exact Or.inl hops
  · exact Or.inr ⟨r, hops⟩

/-- C9: a call touches only its own storage key — the prefix
`"rate-limit:"` concatenated with its client key: all other store
entries are left unchanged, every store operation targets that key, and
the response, operation trace, and resulting own entry depend on the
store only through that entry, so calls with distinct keys never
influence one another. -/
theorem zebra_c9 (w m : Int) (ip : String) (t : Int) (s s2 : Store) :
    storageKey ip = keyPrefix ++ ip ∧
    (∀ k, k ≠ storageKey ip → (check w m ip t s).2.1 k = s k) ∧
    (∀ op ∈ (check w m ip t s).2.2, op.key = storageKey ip) ∧
    (s (storageKey ip) = s2 (storageKey ip) →
       (check w m ip t s).1 = (check w m ip t s2).1 ∧
       (check w m ip t s).2.2 = (check w m ip t s2).2.2 ∧
       (check w m ip t s).2.1 (storageKey ip) = (check w m ip t s2).2.1 (storageKey ip)) := by
  refine ⟨rfl, ?_, ?_, check_congr w m ip t s s2⟩
  · intro k hk
    rcases check_cases w m ip t s with ⟨-, hs', -⟩ | ⟨-, r, hs', -⟩
    · rw [hs']
    · rw [hs']
      exact setKey_other _ _ _ _ hk
  · intro op hop
    rcases check_cases w m ip t s with ⟨-, -, hops⟩ | ⟨-, r, -, hops⟩ <;>
      rw [hops] at hop <;>
      simp only [List.mem_cons, List.not_mem_nil, or_false] at hop
    · rw [hop]
      rfl
    · rcases hop with h1 | h1 <;> rw [h1] <;> rfl

/-- Witness for C9: with an entry for `ipA` written, the entry of the
distinct key `ipB` is unchanged, and a call for `ipA` behaves the same
on the empty store and on a store differing only at `ipB`'s key. -/
theorem zebra_c9_witness :
    (check 100 5 ipA 0 (setKey emptyStore keyB ⟨.num 4, .num 70⟩)).2.1 keyB =
        setKey emptyStore keyB ⟨.num 4, .num 70⟩ keyB ∧
    (check 100 5 ipA 0 (setKey emptyStore keyB ⟨.num 4, .num 70⟩)).1 =
        (check 100 5 ipA 0 emptyStore).1 :=
  ⟨(zebra_c9 100 5 ipA 0 (setKey emptyStore keyB ⟨.num 4, .num 70⟩) emptyStore).2.1
      keyB (by decide),
   ((zebra_c9 100 5 ipA 0 (setKey emptyStore keyB ⟨.num 4, .num 70⟩) emptyStore).2.2.2
      (by decide)).1⟩

/-- C10: starting from a store in which every record is well-formed
with hits in `[1, maxRequests]` (for instance the empty store), every
store reachable by a sequence of calls keeps that invariant, and every
record any single call writes has its hit count in `[1, maxRequests]`:
hits is incremented before the limit test and the write is reached only
when the result stays within the limit. -/
theorem zebra_c10 (w m : Int) (calls : List (String × Int)) (s : Store)
    (hs : goodStore m s) :
    goodStore m (runCalls w m calls s).2 ∧
    (∀ (ip : String) (t : Int) (s2 : Store), goodStore m s2 →
       ∀ k r ttl, StoreOp.write k r ttl ∈ (check w m ip t s2).2.2 →
         ∃ h e : Int, r = ⟨.num h, .num e⟩ ∧ 1 ≤ h ∧ h ≤ m) := by
  constructor
  · revert hs
    induction calls generalizing s with
    | nil => intro hs; exact hs
    | cons p rest ih =>
        intro hs
        obtain ⟨ip, t⟩ := p
        rw [runCalls_cons]
        exact ih _ ((check_good w m ip t s hs).1)
  · intro ip t s2 hs2 k r ttl hmem
    exact (check_good w m ip t s2 hs2).2 k r ttl hmem

/-- Witness for C10: after one call on the empty store with limit 3,
the store still satisfies the invariant. -/
theorem zebra_c10_witness :
    goodStore 3 (runCalls 100 3 [(ipA, 0)] emptyStore).2 :=
  (zebra_c10 100 3 [(ipA, 0)] emptyStore
    (fun _ _ hk => Option.noConfusion hk)).1

end ZebraCrossing
